import Mathlib

/-!
Verification of the feed-forward neural-network core of
`sjovicevic/logistic-regression-from-scratch` (files `utils.py` and
`src/neural_network.py`).

The numeric arrays of the source (numpy 2-D float arrays) are modelled as
`List (List ℚ)`: exact rational arithmetic stands in for IEEE floats, and a
matrix is its list of rows.  Fallible Python code (KeyError on a missing
cache entry, TypeError on a bad call, UnboundLocalError, a ValueError from a
failed numpy broadcast) is modelled with `Option`: `none` is an uncaught
Python exception.  `utils.sigmoid` works on transcendental values, so it is
modelled over `ℝ` with `Real.exp`.
-/

/-- A numeric 2-D array: the list of its rows. -/
abbrev Mat (α : Type) : Type := List (List α)

/-- Dot product of two equal-length numeric vectors. -/
def dotL (r c : List ℚ) : ℚ := (List.zipWith (fun a b => a * b) r c).sum

/-- Transpose of a rectangular matrix (`numpy.ndarray.T`). -/
def transposeM (m : Mat ℚ) : Mat ℚ :=
  (List.range (m.headD []).length).map (fun j => m.map (fun row => row.getD j 0))

/-- Matrix product (`np.dot` on 2-D arrays). -/
def matmul (a b : Mat ℚ) : Mat ℚ :=
  a.map (fun row => (transposeM b).map (fun col => dotL row col))

/-- Elementwise product of two same-shape arrays (numpy `*`). -/
def hadamard (a b : Mat ℚ) : Mat ℚ := List.zipWith (List.zipWith (fun x y => x * y)) a b

/-- Elementwise difference of two same-shape arrays. -/
def matSub (a b : Mat ℚ) : Mat ℚ := List.zipWith (List.zipWith (fun x y => x - y)) a b

/-- Scalar times matrix. -/
def smulM (c : ℚ) (m : Mat ℚ) : Mat ℚ := m.map (List.map (fun x => c * x))

/-- Column sums of a matrix (`np.sum(e, axis=0)`). -/
def colSum (m : Mat ℚ) : List ℚ :=
  (List.range (m.headD []).length).map (fun j => (m.map (fun row => row.getD j 0)).sum)

/-- Add a row vector to every row of a matrix (numpy broadcasting of `+ bias`). -/
def rowAddVec (m : Mat ℚ) (b : List ℚ) : Mat ℚ :=
  m.map (fun row => List.zipWith (fun x y => x + y) row b)

/-- Elementwise difference of two vectors. -/
def vecSub (a b : List ℚ) : List ℚ := List.zipWith (fun x y => x - y) a b

/-- Scalar times vector. -/
def smulV (c : ℚ) (v : List ℚ) : List ℚ := v.map (fun x => c * x)

/-- Apply a scalar function to every entry of a matrix. -/
def matMap (f : ℚ → ℚ) (m : Mat ℚ) : Mat ℚ := m.map (List.map f)

/-- An activation as a layer stores it: the value form `f(z)` together with the
derivative form `f(z, derivative=True)` when the Python function accepts the
`derivative` keyword.  `utils.softmax` does not (calling it with
`derivative=True` raises `TypeError`), which is modelled by `deriv := none`. -/
structure Activation where
  value : Mat ℚ → Mat ℚ
  deriv : Option (Mat ℚ → Mat ℚ)

/-- `utils.relu`, one function with a `derivative` flag, exactly as in the
source.  The derivative branch is the sequence of the source's two `np.where`
calls: first every entry `< 0` is replaced by `0`, then every entry `>= 0` of
the *result* is replaced by `1`.  The value branch is `np.maximum(0, z)`. -/
def relu (z : Mat ℚ) (derivative : Bool) : Mat ℚ :=
  if derivative then
    let z1 := matMap (fun x => if x < 0 then 0 else x) z
    matMap (fun x => if 0 ≤ x then 1 else x) z1
  else matMap (fun x => max 0 x) z

/-- `utils.relu` packaged the way a layer consumes it. -/
def reluAct : Activation := ⟨fun z => relu z false, some (fun z => relu z true)⟩

/-- `utils.softmax` as an activation: its Python definition has no
`derivative` parameter, so the derivative form is absent (`none`).  Its value
form (row-wise normalized exponentials) is transcendental, hence not
representable over `ℚ`; it is taken as a parameter because no theorem below
ever evaluates it — only the missing derivative form matters for backward. -/
def softmaxAct (value : Mat ℚ → Mat ℚ) : Activation := ⟨value, none⟩

/-- `utils.sigmoid`, one function with a `derivative` flag, exactly as in the
source: the value branch divides by `1 - exp(-z)` (the source's formula, not
the conventional logistic `1 + exp(-z)`), the derivative branch is
`exp(-z) / (exp(-z) + 1)^2`.  Stated entrywise over `ℝ`. -/
noncomputable def sigmoid (z : ℝ) (derivative : Bool) : ℝ :=
  if derivative then Real.exp (-z) / (Real.exp (-z) + 1) ^ 2
  else 1 / (1 - Real.exp (-z))

/-- One dense layer (`Layer` of `src/neural_network.py`).  `memoryZ` and
`memoryA` model the entries `memory['Z']` and `memory['Activation']` of the
Python cache dict: `none` means the key is absent (reading it raises
`KeyError`).  The bookkeeping fields `n_neurons`, `n_features`, `n_samples`
of the Python class are derived data never read by the operations modelled
here and are omitted. -/
structure Layer where
  input : Mat ℚ
  weights : Mat ℚ
  bias : List ℚ
  activation_f : Activation
  memoryZ : Option (Mat ℚ)
  memoryA : Option (Mat ℚ)
  learning_rate : ℚ

/-- `Layer.forward`: store the input, cache `Z = input · W + b` and
`A = activation(Z)`, return `A` (together with the updated layer, since the
Python method mutates `self`). -/
def Layer.forward (l : Layer) (x : Mat ℚ) : Layer × Mat ℚ :=
  let z := rowAddVec (matmul x l.weights) l.bias
  let a := l.activation_f.value z
  ({ l with input := x, memoryZ := some z, memoryA := some a }, a)

/-- `Layer.backward`, line for line from the source: it reads the cached `Z`
(`KeyError`, i.e. `none`, if no forward ever ran) and calls the activation
with `derivative=True` (`TypeError`, i.e. `none`, if the activation has no
such parameter, as for softmax).  It then forms the combined error signal
`E = previous_derivative ⊙ da_dz`, the gradients `w_grad = inputᵀ · E` and
`b_grad = column-sum E`, updates `weights` and `bias` in place, and — only
afterwards, exactly as in the source — returns `E · weightsᵀ` computed from
the *already updated* weights when `req_delta` is true. -/
def Layer.backward (l : Layer) (previous_derivative : Mat ℚ) (req_delta : Bool) :
    Option (Layer × Option (Mat ℚ)) :=
  match l.memoryZ, l.activation_f.deriv with
  | some z, some d =>
    let da_dz := d z
    let e := hadamard previous_derivative da_dz
    let w_grad := matmul (transposeM l.input) e
    let b_grad := colSum e
    let weights1 := matSub l.weights (smulM l.learning_rate w_grad)
    let bias1 := vecSub l.bias (smulV l.learning_rate b_grad)
    some ({ l with weights := weights1, bias := bias1 },
          if req_delta then some (matmul e (transposeM weights1)) else none)
  | _, _ => none

/-- Modelled from the spec: `utils.loss` is invoked by `NeuralNetwork.train`
(`utils.loss(prediction, self.y_train, self.X_train.shape[0])`) but is absent
from the repository's source files.  Per spec §4.2 it is the mean squared
error between the prediction and target arrays, normalized by the sample
count.  Stated generically so the same definition serves the `ℚ` network
model and the `ℝ` gradient analysis. -/
def loss {α : Type} [DivisionRing α] (prediction target : Mat α) (n_samples : ℕ) : α :=
  (List.zipWith (fun rp rt => (List.zipWith (fun p t => (p - t) ^ 2) rp rt).sum)
    prediction target).sum / (n_samples : α)

/-- Modelled from the spec: `utils.loss_derivative` is invoked by
`NeuralNetwork.train` (`utils.loss_derivative(self.y_train, prediction)`) but
is absent from the repository's source files.  Per spec §4.2 it is the
gradient of `loss` with respect to the prediction, with the same shape as the
prediction; the sample count entering the gradient is the prediction's row
count, which is what `train` passes to `loss`. -/
def loss_derivative {α : Type} [DivisionRing α] (target prediction : Mat α) : Mat α :=
  List.zipWith
    (fun rt rp => List.zipWith (fun t p => 2 * (p - t) / (prediction.length : α)) rt rp)
    target prediction

/-- One specification entry of the network's construction list, e.g.
`{'neurons': 64, 'activation_f': utils.relu}`. -/
structure LayerSpec where
  neurons : ℕ
  activation_f : Activation

/-- The network (`NeuralNetwork` of `src/neural_network.py`): the
training/evaluation split stored at construction, the ordered layer chain,
and the append-only loss history. -/
structure Network where
  x_train : Mat ℚ
  x_test : Mat ℚ
  y_train : Mat ℚ
  y_test : Mat ℚ
  loss_history : List ℚ
  layers : List Layer

/-- `NeuralNetwork.clean`: the source's active body is
`[Layer(layers['neurons'], layers['activation_f']) for layer in layers]`.
For a non-empty specification list the first evaluation of the comprehension
body indexes the specification *list* `layers` with the string `'neurons'`
(`TypeError: list indices must be integers`), and would in any case call the
three-parameter `Layer.__init__` with only two arguments; either way the call
raises, modelled as `none`.  For an empty list the body never runs and the
empty layer list is returned. -/
def clean (layers : List LayerSpec) : Option (List Layer) :=
  match layers with
  | [] => some []
  | _ :: _ => none

/-- `NeuralNetwork.set_lr`: write the learning rate onto every layer. -/
def setLr (alpha : ℚ) (layers : List Layer) : List Layer :=
  layers.map (fun l => { l with learning_rate := alpha })

/-- Forward chaining used by `propagation`: each layer of the list is
forwarded on the previous layer's freshly cached activation (the loop body
`tmp_hat = self.layers[index+1].forward(self.layers[index].memory['Activation'])`,
where `forward` both returns and caches `memory['Activation']`). -/
def forwardChain : List Layer → Mat ℚ → List Layer × Mat ℚ
  | [], a => ([], a)
  | l :: ls, a =>
    let fa := l.forward a
    let rest := forwardChain ls fa.2
    (fa.1 :: rest.1, rest.2)

/-- `NeuralNetwork.propagation`.  When `test` is true the first layer's
stored input is overwritten with `x_test` (an `IndexError`, i.e. `none`, on an
empty chain); when `test` is false `x_test` is never read.  The loop runs
`len(layers) - 1` times, so with fewer than two layers `tmp_hat` is never
assigned and the `return` raises `UnboundLocalError`, modelled as `none`.
Otherwise layer 0 is forwarded on its own stored input and the remaining
layers are chained, returning the updated chain and the last activation. -/
def propagation (layers : List Layer) (x_test : Mat ℚ) (test : Bool) :
    Option (List Layer × Mat ℚ) :=
  match layers with
  | [] => none
  | l0 :: rest =>
    let l0 := if test then { l0 with input := x_test } else l0
    match rest with
    | [] => none
    | _ :: _ =>
      let f0 := l0.forward l0.input
      let fr := forwardChain rest f0.2
      some (f0.1 :: fr.1, fr.2)

/-- Reverse-order traversal used by `backpropagation`, taken on the reversed
layer list: the head of the reversed list is the network's last layer.  Every
layer except the original first one (the last element of the reversed list)
is called with `req_delta = True` (`idx != 0` in the source) and hands its
returned delta to the next iteration; the original first layer is called with
`req_delta = False`.  Any failing `backward` call aborts the pass (`none`). -/
def backwardChainRev : List Layer → Mat ℚ → Option (List Layer)
  | [], _ => some []
  | [l], d =>
    match l.backward d false with
    | some p => some [p.1]
    | none => none
  | l :: ls, d =>
    match l.backward d true with
    | some (l1, some delta) => (backwardChainRev ls delta).map (fun ls1 => l1 :: ls1)
    | _ => none

/-- `NeuralNetwork.backpropagation`: iterate `backward` from the last layer
down to the first, threading the returned delta. -/
def backpropagation (layers : List Layer) (d : Mat ℚ) : Option (List Layer) :=
  (backwardChainRev layers.reverse d).map List.reverse

/-- The literal `0` that `train` passes to `propagation` as `x_test`; it is
never read because `train` passes `test=False`. -/
def zeroArg : Mat ℚ := []

/-- One iteration of `train`'s epoch loop: forward pass from the first
layer's stored input, loss appended to the history, loss derivative, backward
pass.  The loss is appended before backpropagation runs, as in the source. -/
def epochStep (net : Network) : Option Network :=
  match propagation net.layers zeroArg false with
  | none => none
  | some (layers1, prediction) =>
    match backpropagation layers1 (loss_derivative net.y_train prediction) with
    | none => none
    | some layers2 =>
      some { net with
               layers := layers2,
               loss_history :=
                 net.loss_history ++ [loss prediction net.y_train net.x_train.length] }

/-- The epoch loop of `train`: `for _ in range(epochs): ...`. -/
def trainLoop : ℕ → Network → Option Network
  | 0, net => some net
  | k + 1, net =>
    match epochStep net with
    | none => none
    | some net1 => trainLoop k net1

/-- `NeuralNetwork.train`: set the learning rate on every layer, then run the
epoch loop.  `epochs` is an integer as in Python; `range(epochs)` runs
`max 0 epochs` times, which is `epochs.toNat`.  The source performs no
validation of `epochs` or `learning_rate`. -/
def train (net : Network) (epochs : ℤ) (learning_rate : ℚ) : Option Network :=
  trainLoop epochs.toNat { net with layers := setLr learning_rate net.layers }

/-- Elementwise numpy comparison `y_p == y_t` of two 1-D integer label
arrays, with numpy's broadcasting rule: equal lengths compare positionwise, a
length-one array is broadcast against the other, and any other length pair
fails to broadcast (a `ValueError` under numpy ≥ 1.25), modelled as `none`. -/
def npEqBroadcast (a b : List ℤ) : Option (List Bool) :=
  if a.length = b.length then some (List.zipWith (fun x y => decide (x = y)) a b)
  else if a.length = 1 then some (b.map (fun y => decide (a.getD 0 0 = y)))
  else if b.length = 1 then some (a.map (fun x => decide (x = b.getD 0 0)))
  else none

/-- `utils.accuracy`: `np.sum(y_p == y_t) / len(y_t)`.  The comparison array
is summed (counting agreements) and divided by the length of the *actual*
label array.  When `len(y_t)` is zero the division `0 / 0` produces no real
number (numpy yields `nan`), modelled as `none`. -/
def accuracy (y_p y_t : List ℤ) : Option ℚ :=
  match npEqBroadcast y_p y_t with
  | none => none
  | some cmp =>
    if y_t.length = 0 then none
    else some ((cmp.countP id : ℚ) / (y_t.length : ℚ))

/-- Overwrite entry `(i, j)` of a matrix, leaving it unchanged when the
position is out of range.  Used to state what "the gradient of the loss with
respect to the prediction array" means, one coordinate at a time. -/
def setEntry {α : Type} : Mat α → ℕ → ℕ → α → Mat α
  | [], _, _, _ => []
  | r :: rs, 0, j, x => r.set j x :: rs
  | r :: rs, i + 1, j, x => r :: setEntry rs i j x

/-- Entry `(i, j)` of a matrix, `0` when out of range. -/
def matEntry {α : Type} [Zero α] (m : Mat α) (i j : ℕ) : α :=
  (m.getD i []).getD j 0

/-- A freshly built 1-input/1-neuron layer with zero parameters, an empty
cache and the relu activation, as after `Layer.__init__` (with the random
weight draw pinned to `0`). -/
def zeroLayer : Layer :=
  { input := [[0]], weights := [[0]], bias := [0], activation_f := reluAct,
    memoryZ := none, memoryA := none, learning_rate := 0 }

/-- A 1-input/1-neuron relu layer with unit weight, unit learning rate and a
populated cache for the input `[[1]]`, as after a forward call. -/
def cBackLayer : Layer :=
  { input := [[1]], weights := [[1]], bias := [0], activation_f := reluAct,
    memoryZ := some [[1]], memoryA := some [[1]], learning_rate := 1 }

/-- A layer whose activation is `utils.softmax` (value form irrelevant here,
instantiated with the identity), with a populated cache: the state of an
output layer right before its `backward` call. -/
def cSoftmaxLayer : Layer :=
  { input := [[1]], weights := [[1]], bias := [0],
    activation_f := softmaxAct (fun z => z),
    memoryZ := some [[1]], memoryA := some [[1]], learning_rate := 1 }

/-- A two-layer network on the one-sample dataset `x_train = y_train = [[0]]`
with an empty loss history, used to exercise `train` on concrete data. -/
def cNet : Network :=
  { x_train := [[0]], x_test := [[0]], y_train := [[0]], y_test := [[0]],
    loss_history := [], layers := [zeroLayer, zeroLayer] }

/-- The network obtained by running one epoch of `train` at learning rate `1`
on `cNet`. -/
def cNetTrained : Network := (train cNet 1 1).getD cNet

/-- `List.range 1` evaluated; used to run the width-indexed loops of
`transposeM` and `colSum` on concrete 1-column matrices. -/
theorem list_range_one : List.range 1 = [0] := by decide

/-- C1: the claim says `backward` propagates `E · Wᵀ` with the weight value
from *before* this call's gradient update.  The code updates `self.weights`
first and only then forms the return value, so it propagates through the
already-updated weights.  At the concrete layer `cBackLayer` (weights
`[[1]]`, cached `Z = [[1]]`, learning rate `1`) with upstream derivative
`[[1]]`: the combined error signal is `E = [[1]]`, the updated weight matrix
is `[[0]]`, and `backward` returns `E · W_afterᵀ = [[0]]`, whereas
`E · W_beforeᵀ = [[1]]`.  The two differ, refuting the claim on the code. -/
theorem backward_delta_uses_updated_weights :
    (Layer.backward cBackLayer [[1]] true).map (fun r => r.1.weights) = some [[0]] ∧
    (Layer.backward cBackLayer [[1]] true).map (fun r => r.2) = some (some [[0]]) ∧
    matmul (hadamard [[1]] (relu [[1]] true)) (transposeM cBackLayer.weights) = [[1]] ∧
    (some (some [[(0 : ℚ)]]) : Option (Option (Mat ℚ))) ≠ some (some [[1]]) := by
  refine ⟨?_, ?_, ?_, by norm_num⟩ <;>
    norm_num [Layer.backward, cBackLayer, reluAct, relu, matMap, hadamard, matmul,
      transposeM, dotL, smulM, matSub, colSum, vecSub, smulV, list_range_one,
      Function.comp]

/-- C2: the claim says construction builds one `Layer` per specification
entry with per-index wiring.  The active body of `NeuralNetwork.clean`
instead raises a `TypeError` on every non-empty specification list (it
indexes the specification list with the string `'neurons'` and passes only
two of `Layer.__init__`'s three required arguments), so no layer is ever
built; only the degenerate empty list survives. -/
theorem clean_raises_on_nonempty_specs :
    clean [⟨4, reluAct⟩] = none ∧ clean [] = some [] :=
  ⟨rfl, rfl⟩

/-- C3: the claim says the relu derivative is `1` where the input is `≥ 0`
and `0` where it is `< 0`.  The code's first `np.where` replaces negatives by
`0`, after which *every* entry is `≥ 0`, so the second `np.where` turns every
entry into `1`: at the input `[[-2]]` the code returns `[[1]]` where the
claim requires `[[0]]`. -/
theorem relu_derivative_wrong_on_negatives :
    relu [[-2]] true = [[1]] ∧ ([[(1 : ℚ)]] : Mat ℚ) ≠ [[0]] :=
  ⟨by norm_num [relu, matMap], by norm_num⟩

/-- C4: the claim says the sigmoid value form is the conventional logistic
`1 / (1 + e^(-z))`.  The source divides by `1 - e^(-z)` instead: at `z = 1`
the source's value exceeds `1` while the conventional logistic value is below
`1`, so the two differ. -/
theorem sigmoid_value_differs_from_logistic :
    1 < sigmoid 1 false ∧ 1 / (1 + Real.exp (-1)) < 1 ∧
    sigmoid 1 false ≠ 1 / (1 + Real.exp (-1)) := by
  have he : 0 < Real.exp (-1) := Real.exp_pos _
  have he1 : Real.exp (-1) < 1 := Real.exp_lt_one_iff.mpr (by norm_num)
  have hs : sigmoid 1 false = 1 / (1 - Real.exp (-1)) := rfl
  have h1 : 1 < sigmoid 1 false := by
    rw [hs]
    exact one_lt_one_div (by linarith) (by linarith)
  have h2 : 1 / (1 + Real.exp (-1)) < 1 := by
    rw [div_lt_one (by linarith)]
    linarith
  exact ⟨h1, h2, fun h => absurd (h ▸ h1) (by linarith)⟩

/-- C6: the claim says a backward pass over a network whose final layer uses
softmax completes without evaluating a standalone softmax derivative, the
loss derivative serving directly as the combined error signal.  In the code
`Layer.backward` unconditionally calls `activation_f(Z, derivative=True)`,
and `utils.softmax` accepts no `derivative` parameter, so the output layer's
backward call raises `TypeError` — the pass never completes.  Concretely the
backward call on `cSoftmaxLayer` fails for either `req_delta`, and a full
backward pass over a chain ending in that layer fails as well. -/
theorem softmax_backward_raises :
    Layer.backward cSoftmaxLayer [[1]] true = none ∧
    Layer.backward cSoftmaxLayer [[1]] false = none ∧
    backpropagation [zeroLayer, cSoftmaxLayer] [[1]] = none :=
  ⟨rfl, rfl, rfl⟩

/-- C8: the claim says `train` validates its hyperparameters and rejects
non-positive `epochs` or `learning_rate` with an `InvalidHyperparameter`
error.  The source performs no validation: with `epochs = 0` and learning
rate `-5` (or `epochs = -3` and learning rate `1/2`) the call returns
normally — `range` of a non-positive bound simply runs zero iterations —
with the learning rate silently installed on every layer and the loss
history untouched. -/
theorem train_accepts_nonpositive_hyperparameters :
    train cNet 0 (-5) = some { cNet with layers := setLr (-5) cNet.layers } ∧
    train cNet (-3) (1 / 2) = some { cNet with layers := setLr (1 / 2) cNet.layers } :=
  ⟨rfl, rfl⟩

/-- C10: with `test=False` the `x_test` argument of
`NeuralNetwork.propagation` is never read — the guarded assignment
`self.layers[0].input = x_test` is skipped and the forward pass starts from
whatever input the first layer currently stores (which is exactly how
`train`'s per-epoch forward pass `self.propagation(0, False)` runs).  Hence
any two argument values give identical results. -/
theorem propagation_ignores_argument_when_not_test
    (layers : List Layer) (a b : Mat ℚ) :
    propagation layers a false = propagation layers b false := by
  cases layers with
  | nil => rfl
  | cons l0 rest => rfl

/-- C9 counterexample: the claim says that for sequences of differing
lengths, `accuracy` reports a length-mismatch condition instead of returning
a value.  With predicted `[0]` against actual `[0, 1]` the lengths differ
(1 versus 2), yet numpy broadcasts the single prediction across the actual
array and `accuracy` returns the value `1/2` rather than any error. -/
theorem accuracy_broadcast_counterexample :
    accuracy [0] [0, 1] = some (1 / 2) ∧ accuracy [0] [0, 1] ≠ none := by
  have h : accuracy [0] [0, 1] = some (1 / 2) := by
    norm_num [accuracy, npEqBroadcast, List.countP, List.countP.go]
  exact ⟨h, by rw [h]; exact fun hc => Option.noConfusion hc⟩

/-- C9 (amended): for equal-length *non-empty* label sequences `accuracy`
returns the agreement fraction, which lies in `[0, 1]` (with the spec's own
example `[0,1,1,2]` vs `[0,1,2,2] → 3/4`); for sequences of differing
lengths it reports a length-mismatch condition — *unless* one of the two
sequences has length 1, in which case numpy broadcasting compares that single
value against every element of the other sequence and a value is still
returned (see the counterexample); with empty equal-length sequences the
division `0 / 0` yields no real number. -/
theorem accuracy_amended_contract (y_p y_t : List ℤ) :
    (y_p.length = y_t.length → y_t ≠ [] →
      accuracy y_p y_t =
        some (((List.zipWith (fun x y => decide (x = y)) y_p y_t).countP id : ℚ) /
          (y_t.length : ℚ)) ∧
      ∀ v : ℚ, accuracy y_p y_t = some v → 0 ≤ v ∧ v ≤ 1) ∧
    (y_p.length ≠ y_t.length → y_p.length ≠ 1 → y_t.length ≠ 1 →
      accuracy y_p y_t = none) ∧
    accuracy [0, 1, 1, 2] [0, 1, 2, 2] = some (3 / 4) := by
  refine ⟨?_, ?_, ?_⟩
  · intro hlen hne
    have hlz : y_t.length ≠ 0 := fun h => hne (List.length_eq_zero.mp h)
    have hacc : accuracy y_p y_t =
        some (((List.zipWith (fun x y => decide (x = y)) y_p y_t).countP id : ℚ) /
          (y_t.length : ℚ)) := by
      unfold accuracy npEqBroadcast
      rw [if_pos hlen]
      simp only [if_neg hlz]
    refine ⟨hacc, ?_⟩
    intro v hv
    rw [hacc] at hv
    have hv2 : v = ((List.zipWith (fun x y => decide (x = y)) y_p y_t).countP id : ℚ) /
        (y_t.length : ℚ) := (Option.some_inj.mp hv).symm
    subst hv2
    constructor
    · exact div_nonneg (Nat.cast_nonneg _) (Nat.cast_nonneg _)
    · rw [div_le_one (by positivity)]
      have hcount :
          (List.zipWith (fun x y => decide (x = y)) y_p y_t).countP id ≤ y_t.length := by
        calc (List.zipWith (fun x y => decide (x = y)) y_p y_t).countP id
            ≤ (List.zipWith (fun x y => decide (x = y)) y_p y_t).length :=
              List.countP_le_length _
          _ = min y_p.length y_t.length := List.length_zipWith _ _ _
          _ ≤ y_t.length := min_le_right _ _
      exact_mod_cast hcount
  · intro h1 h2 h3
    unfold accuracy npEqBroadcast
    rw [if_neg h1, if_neg h2, if_neg h3]
  · norm_num [accuracy, npEqBroadcast, List.countP, List.countP.go]

/-- C9 witness: the amended contract applied to the spec's fixed example and
to a concrete non-broadcastable length mismatch (2 versus 3). -/
theorem accuracy_amended_contract_witness :
    accuracy [0, 1, 1, 2] [0, 1, 2, 2] = some (3 / 4) ∧
    accuracy [0, 1] [0, 1, 2] = none :=
  ⟨(accuracy_amended_contract [0, 1, 1, 2] [0, 1, 2, 2]).2.2,
   (accuracy_amended_contract [0, 1] [0, 1, 2]).2.1 (by decide) (by decide) (by decide)⟩

/-- Overwriting position `j` of a row changes a row's summed squared error
by swapping the old squared difference at `j` for the new one. -/
theorem sum_zipWith_sq_set (rp rt : List ℝ) :
    ∀ (j : ℕ) (x : ℝ), j < rp.length → j < rt.length →
      (List.zipWith (fun p t => (p - t) ^ 2) (rp.set j x) rt).sum
        = (List.zipWith (fun p t => (p - t) ^ 2) rp rt).sum
          - (rp.getD j 0 - rt.getD j 0) ^ 2 + (x - rt.getD j 0) ^ 2 := by
  induction rp generalizing rt with
  | nil => intro j x hj _; exact absurd hj (by simp)
  | cons a l ih =>
    intro j x hj hjt
    cases rt with
    | nil => exact absurd hjt (by simp)
    | cons b m =>
      cases j with
      | zero => simp [List.set]; ring
      | succ j =>
        simp only [List.set, List.zipWith_cons_cons, List.sum_cons, List.getD_cons_succ]
        rw [ih m j x (by simpa using hj) (by simpa using hjt)]
        ring

/-- Overwriting entry `(i, j)` of the prediction changes the total summed
squared error by swapping the old squared difference at `(i, j)` for the new
one. -/
theorem sum_sq_setEntry (p : Mat ℝ) :
    ∀ (t : Mat ℝ) (i j : ℕ) (x : ℝ), i < p.length → i < t.length →
      j < (p.getD i []).length → j < (t.getD i []).length →
      (List.zipWith (fun rp rt => (List.zipWith (fun a b => (a - b) ^ 2) rp rt).sum)
        (setEntry p i j x) t).sum
        = (List.zipWith (fun rp rt => (List.zipWith (fun a b => (a - b) ^ 2) rp rt).sum)
            p t).sum
          - (matEntry p i j - matEntry t i j) ^ 2 + (x - matEntry t i j) ^ 2 := by
  induction p with
  | nil => intro t i j x hi _ _ _; exact absurd hi (by simp)
  | cons r rs ih =>
    intro t i j x hi hit hj hjt
    cases t with
    | nil => exact absurd hit (by simp)
    | cons rt ts =>
      cases i with
      | zero =>
        simp only [setEntry, List.zipWith_cons_cons, List.sum_cons, matEntry,
          List.getD_cons_zero]
        rw [sum_zipWith_sq_set r rt j x (by simpa using hj) (by simpa using hjt)]
        ring
      | succ i =>
        simp only [setEntry, List.zipWith_cons_cons, List.sum_cons, matEntry,
          List.getD_cons_succ]
        rw [ih ts i j x (by simpa using hi) (by simpa using hit)
          (by simpa using hj) (by simpa using hjt)]
        simp only [matEntry]
        ring

/-- `getD` distributes over `zipWith` at an in-range index, for any choice of
defaults. -/
theorem getD_zipWith {α β γ : Type} (f : α → β → γ) :
    ∀ (l : List α) (m : List β) (k : ℕ) (d : γ) (da : α) (db : β),
      k < l.length → k < m.length →
      (List.zipWith f l m).getD k d = f (l.getD k da) (m.getD k db) := by
  intro l
  induction l with
  | nil => intro m k d da db hk _; exact absurd hk (by simp)
  | cons a l ih =>
    intro m k d da db hk hkm
    cases m with
    | nil => exact absurd hkm (by simp)
    | cons b m =>
      cases k with
      | zero => simp
      | succ k =>
        simp only [List.zipWith_cons_cons, List.getD_cons_succ]
        exact ih m k d da db (by simpa using hk) (by simpa using hkm)

/-- Entry `(i, j)` of the spec-modelled loss derivative is
`2 (pᵢⱼ - tᵢⱼ) / n` with `n` the prediction's row count. -/
theorem matEntry_loss_derivative (t p : Mat ℝ) (i j : ℕ)
    (hi : i < p.length) (hit : i < t.length)
    (hj : j < (p.getD i []).length) (hjt : j < (t.getD i []).length) :
    matEntry (loss_derivative t p) i j
      = 2 * (matEntry p i j - matEntry t i j) / (p.length : ℝ) := by
  unfold matEntry loss_derivative
  rw [getD_zipWith _ t p i [] [] [] hit hi]
  rw [getD_zipWith _ (t.getD i []) (p.getD i []) j 0 0 0 hjt hj]

/-- When the target has the prediction's shape, the spec-modelled loss
derivative also has the prediction's shape. -/
theorem map_length_loss_derivative (t p : Mat ℝ)
    (h : t.map List.length = p.map List.length) :
    (loss_derivative t p).map List.length = p.map List.length := by
  unfold loss_derivative
  generalize hn : (p.length : ℝ) = c
  clear hn
  induction t generalizing p with
  | nil =>
    cases p with
    | nil => rfl
    | cons rp ps => exact absurd h (by simp)
  | cons rt ts ih =>
    cases p with
    | nil => exact absurd h (by simp)
    | cons rp ps =>
      simp only [List.map_cons, List.cons.injEq] at h
      simp only [List.zipWith_cons_cons, List.map_cons, List.cons.injEq]
      exact ⟨by rw [List.length_zipWith, h.1, min_self], ih ps h.2⟩

/-- C5: the spec-modelled `loss` (the functions are invoked by `train` but
absent from the source, so both are modelled from spec §4.2) is the summed
squared error divided by the sample count, and `loss_derivative` is exactly
its gradient with respect to the prediction: it has the prediction's shape
(first conjunct), and perturbing any in-range prediction entry `(i, j)` while
holding the rest fixed changes `loss` — taken, as `train` takes it, at the
sample count equal to the prediction's row count — with exact derivative
`matEntry (loss_derivative t p) i j` at the current entry value (second
conjunct). -/
theorem loss_derivative_is_gradient_of_loss (p t : Mat ℝ) (i j : ℕ)
    (hi : i < p.length) (hit : i < t.length)
    (hj : j < (p.getD i []).length) (hjt : j < (t.getD i []).length) :
    (t.map List.length = p.map List.length →
      (loss_derivative t p).map List.length = p.map List.length) ∧
    HasDerivAt (fun x => loss (setEntry p i j x) t p.length)
      (matEntry (loss_derivative t p) i j) (matEntry p i j) := by
  refine ⟨map_length_loss_derivative t p, ?_⟩
  have key : (fun x => loss (setEntry p i j x) t p.length)
      = fun x => ((x - matEntry t i j) ^ 2 +
          ((List.zipWith (fun rp rt => (List.zipWith (fun a b => (a - b) ^ 2) rp rt).sum)
            p t).sum - (matEntry p i j - matEntry t i j) ^ 2)) / (p.length : ℝ) := by
    funext x
    unfold loss
    rw [sum_sq_setEntry p t i j x hi hit hj hjt]
    ring
  rw [key, matEntry_loss_derivative t p i j hi hit hj hjt]
  have h1 : HasDerivAt (fun x : ℝ => x - matEntry t i j) 1 (matEntry p i j) :=
    (hasDerivAt_id _).sub_const _
  have h2 := h1.pow 2
  have h3 := (h2.add_const
    ((List.zipWith (fun rp rt => (List.zipWith (fun a b => (a - b) ^ 2) rp rt).sum)
      p t).sum - (matEntry p i j - matEntry t i j) ^ 2)).div_const ((p.length : ℝ))
  convert h3 using 1
  ring

/-- C5 witness: the gradient theorem applied to the one-entry prediction
`[[3]]` against the target `[[1]]`. -/
theorem loss_derivative_is_gradient_of_loss_witness :
    (([[(1 : ℝ)]] : Mat ℝ).map List.length = ([[(3 : ℝ)]] : Mat ℝ).map List.length →
      (loss_derivative [[(1 : ℝ)]] [[(3 : ℝ)]]).map List.length
        = ([[(3 : ℝ)]] : Mat ℝ).map List.length) ∧
    HasDerivAt
      (fun x => loss (setEntry [[(3 : ℝ)]] 0 0 x) [[(1 : ℝ)]] ([[(3 : ℝ)]] : Mat ℝ).length)
      (matEntry (loss_derivative [[(1 : ℝ)]] [[(3 : ℝ)]]) 0 0)
      (matEntry [[(3 : ℝ)]] 0 0) :=
  loss_derivative_is_gradient_of_loss [[(3 : ℝ)]] [[(1 : ℝ)]] 0 0
    (by decide) (by decide) (by decide) (by decide)

/-- A row's summed squared error is non-negative. -/
theorem sum_sq_row_nonneg (rp rt : List ℚ) :
    0 ≤ (List.zipWith (fun p t => (p - t) ^ 2) rp rt).sum := by
  induction rp generalizing rt with
  | nil => simp
  | cons a l ih =>
    cases rt with
    | nil => simp
    | cons b m =>
      simp only [List.zipWith_cons_cons, List.sum_cons]
      have h1 : (0 : ℚ) ≤ (a - b) ^ 2 := sq_nonneg _
      have h2 := ih m
      linarith

/-- The spec-modelled mean squared error is non-negative on any inputs. -/
theorem loss_nonneg (p t : Mat ℚ) (n : ℕ) : 0 ≤ loss p t n := by
  unfold loss
  apply div_nonneg _ (Nat.cast_nonneg n)
  induction p generalizing t with
  | nil => simp
  | cons r rs ih =>
    cases t with
    | nil => simp
    | cons rt ts =>
      simp only [List.zipWith_cons_cons, List.sum_cons]
      have h1 := sum_sq_row_nonneg r rt
      have h2 := ih ts
      linarith

/-- A successful epoch appends exactly one entry, a non-negative loss value,
to the history. -/
theorem epochStep_history (net net1 : Network) (h : epochStep net = some net1) :
    ∃ v, 0 ≤ v ∧ net1.loss_history = net.loss_history ++ [v] := by
  unfold epochStep at h
  split at h
  · exact Option.noConfusion h
  · rename_i layers1 prediction heq1
    split at h
    · exact Option.noConfusion h
    · rename_i layers2 heq2
      refine ⟨loss prediction net.y_train net.x_train.length, loss_nonneg _ _ _, ?_⟩
      simp only [Option.some.injEq] at h
      subst h
      rfl

/-- `k` successful epochs append exactly `k` entries, all non-negative, to
the history. -/
theorem trainLoop_history :
    ∀ (k : ℕ) (net net1 : Network), trainLoop k net = some net1 →
      ∃ tail, net1.loss_history = net.loss_history ++ tail ∧ tail.length = k ∧
        ∀ x ∈ tail, 0 ≤ x := by
  intro k
  induction k with
  | zero =>
    intro net net1 h
    unfold trainLoop at h
    simp only [Option.some.injEq] at h
    subst h
    exact ⟨[], by simp, rfl, by simp⟩
  | succ k ih =>
    intro net net1 h
    unfold trainLoop at h
    split at h
    · exact Option.noConfusion h
    · rename_i net2 heq
      obtain ⟨v, hv, hhist⟩ := epochStep_history net net2 heq
      obtain ⟨tail, ht1, ht2, ht3⟩ := ih net2 net1 h
      refine ⟨v :: tail, ?_, by simp [ht2], ?_⟩
      · rw [ht1, hhist, List.append_assoc]
        rfl
      · intro x hx
        rcases List.mem_cons.mp hx with hx | hx
        · exact hx ▸ hv
        · exact ht3 x hx

/-- C7: when `train(epochs = E, learning_rate = r)` with positive `E` and `r`
completes (returns a final state `net1` rather than raising), the loss
history has grown by exactly `E.toNat = E` entries — one appended per
completed epoch, by `epochStep_history` inside the proof — the previous
history survives as an untouched initial segment (the history never
shrinks), a network constructed with an empty history therefore holds
exactly `E` entries, and every appended entry is a non-negative rational
(finiteness is inherent to the exact-arithmetic model). -/
theorem train_appends_loss_per_epoch (net net1 : Network) (E : ℤ) (r : ℚ)
    (hE : 0 < E) (hr : 0 < r) (h : train net E r = some net1) :
    net1.loss_history.length = net.loss_history.length + E.toNat ∧
    net1.loss_history.take net.loss_history.length = net.loss_history ∧
    (net.loss_history = [] → net1.loss_history.length = E.toNat) ∧
    ∀ x ∈ net1.loss_history.drop net.loss_history.length, 0 ≤ x := by
  unfold train at h
  obtain ⟨tail, ht1, ht2, ht3⟩ := trainLoop_history E.toNat _ net1 h
  have hbase : ({ net with layers := setLr r net.layers } : Network).loss_history
      = net.loss_history := rfl
  rw [hbase] at ht1
  refine ⟨?_, ?_, ?_, ?_⟩
  · rw [ht1, List.length_append, ht2]
  · rw [ht1]
    exact List.take_left _ _
  · intro h0
    rw [ht1, h0]
    simp [ht2]
  · rw [ht1, List.drop_left]
    exact ht3

/-- C7 witness: one epoch of `train` on the concrete network `cNet` (two
relu layers on a one-sample dataset) completes, and its loss history behaves
as the theorem states. -/
theorem train_appends_loss_per_epoch_witness :
    (0 : ℤ) < 1 ∧ (0 : ℚ) < 1 ∧ train cNet 1 1 = some cNetTrained ∧
    (cNetTrained.loss_history.length = cNet.loss_history.length + (1 : ℤ).toNat ∧
     cNetTrained.loss_history.take cNet.loss_history.length = cNet.loss_history ∧
     (cNet.loss_history = [] → cNetTrained.loss_history.length = (1 : ℤ).toNat) ∧
     ∀ x ∈ cNetTrained.loss_history.drop cNet.loss_history.length, 0 ≤ x) := by
  have htr : train cNet 1 1 = some cNetTrained := rfl
  exact ⟨by decide, by norm_num, htr,
    train_appends_loss_per_epoch cNet cNetTrained 1 1 (by decide) (by norm_num) htr⟩
